import Mathlib

set_option maxRecDepth 100000

/-!
Shallow embedding of `src/main.rs` of github-archive-attachments-analyzer.

The program reads attachment metadata JSON files (`attachments_*.json`) from a
working directory, resolves each record's `asset_url` to a file on disk, stats
its size, sorts descending by size and prints one label per attachment that has
a pull-request / issue / issue-comment context, warning about the rest.

Modelling choices (each mirrors the Rust source unless noted):
  * The filesystem is an association list `stat : List (String × Nat)` from
    full path to byte size; a path exists iff it has a `stat` entry.  File
    *contents* of the metadata files are modelled by `FileContent`: either a
    parsed record list (serde succeeds), `malformed` (read succeeds, serde
    fails), or `unreadable msg` (`read_to_string` fails with an io error).
  * Outcomes distinguish `ok`, a recoverable `Err` return (`err`), and a
    process-terminating Rust panic (`panic`), since the spec's claims are
    about exactly this distinction.
  * `sort_unstable_by_key` is modelled as an ascending insertion sort, then
    reversed as in the source.  Rust's unstable sort guarantees no particular
    order for equal keys, so the claim theorems rely only on consequences of
    the model that hold for any sort by size (sortedness, membership, and
    per-size-class permutation); the one tie-order-sensitive fact used is the
    concrete two-element counterexample run, where Rust's small-slice
    insertion sort (which exchanges only on strictly-less) deterministically
    emits the two equal keys in reversed order after the reversal.
  * The glob crate returns matching paths in alphabetical order; this is
    modelled by sorting the metadata file list bytewise by filename.
  * Only the skip warnings of the diagnostic stream are modelled (the progress
    `eprintln` lines carry no claim-relevant content).
-/

structure Attachment where
  type : String
  url : String
  pull_request : Option String
  issue : Option String
  issue_comment : Option String
  user : String
  asset_name : String
  asset_content_type : String
  asset_url : String
  created_at : String
deriving DecidableEq

/-- Content of one metadata file, abstracting the JSON text: `records` when
`serde_json::from_str` succeeds, `malformed` when it fails, `unreadable` when
`std::fs::read_to_string` itself fails with the given io-error text. -/
inductive FileContent where
  | records : List Attachment → FileContent
  | malformed : FileContent
  | unreadable : String → FileContent
deriving DecidableEq

/-- The observable environment of one run: the metadata files matching
`attachments_*.json` in the working directory (basename and content), and the
stat table of every existing path (full path → size reported by
`fs::metadata(..).len()`; directories also appear here, existence is
`stat`-membership). -/
structure Env where
  metaFiles : List (String × FileContent)
  stat : List (String × Nat)
deriving DecidableEq

/-- Result of a fallible stage: an `Ok` value, a recoverable `Err` return
carrying the io::Error display text, or a process-terminating panic carrying
the panic message. -/
inductive Outcome (α : Type) where
  | ok : α → Outcome α
  | err : String → Outcome α
  | panic : String → Outcome α
deriving DecidableEq

/-- Result of the size-probing map (src/main.rs:92-111), which can only
succeed or panic — it has no recoverable error path. -/
inductive ProbeOutcome where
  | ok : List (Attachment × Nat) → ProbeOutcome
  | panic : String → ProbeOutcome
deriving DecidableEq

/-- `leads pat l` is true iff `pat` is an initial segment of `l` (used to model
Rust substring matching). -/
def leads : List Char → List Char → Bool
  | [], _ => true
  | _ :: _, [] => false
  | a :: as, b :: bs => a == b && leads as bs

/-- Fuel-driven core of Rust `str::replace`: scan left to right, replacing each
non-overlapping occurrence of `pat` by `to`.  Fuel `s.length + 1` suffices when
`pat` is nonempty because every step consumes at least one character. -/
def replaceGo (pat rep : List Char) : Nat → List Char → List Char
  | 0, s => s
  | _ + 1, [] => []
  | fuel + 1, c :: rest =>
    if leads pat (c :: rest) then rep ++ replaceGo pat rep fuel ((c :: rest).drop pat.length)
    else c :: replaceGo pat rep fuel rest

/-- Model of Rust `s.replace(pat, to)` for nonempty `pat` (the one call site
uses the nonempty pattern `tarball://root/`; the empty-pattern case is never
exercised and is modelled as the identity). -/
def rustReplace (s pat rep : String) : String :=
  if pat.data.isEmpty then s
  else ⟨replaceGo pat.data rep.data (s.data.length + 1) s.data⟩

def startsWithSlash (s : String) : Bool :=
  match s.data with
  | [] => false
  | c :: _ => c == '/'

def endsWithSlash (s : String) : Bool :=
  match s.data.getLast? with
  | some c => c == '/'
  | none => false

/-- Model of Rust `Path::join` as displayed: an absolute right operand
replaces the left, otherwise the two are joined with a single `/`. -/
def joinPath (a b : String) : String :=
  if startsWithSlash b then b
  else if a = "" then b
  else if endsWithSlash a then a ++ b
  else a ++ "/" ++ b

/-- `needle` occurs verbatim inside `hay`. -/
def containsStr (hay needle : String) : Prop :=
  ∃ u v, hay = u ++ needle ++ v

def FIRST_ATTACHMENTS_METADATA_FILENAME : String := "attachments_000001.json"

def ATTACHMENTS_DIRECTORY_NAME : String := "attachments"

/-- The precondition diagnostic of src/main.rs:75, with the two joined paths
interpolated. -/
def preconditionMessage (f d : String) : String :=
  "Could not find `" ++ f ++ "` file and/or `" ++ d ++
    "/` directory. This suggests that either (a) your archive contains no attachments or (b) you're not in a directory created when you extract a GitHub archive."

/-- The wrapper of src/main.rs:84 around an error from `read_attachments_files`. -/
def readWrapMessage (e : String) : String :=
  "Could not read attachments metadata files: " ++ e

/-- The panic message of src/main.rs:105 for a metadata-listed file that is
absent from disk. -/
def missingAttachmentMessage (p : String) : String :=
  "Could not find listed attachment file `" ++ p ++
    "`. Please make sure you're running this tool in the directory created when you extract a GitHub archive."

/-- The panic text of `Result::unwrap` on the failed serde parse at
src/main.rs:29 (the serde error details are abstracted away). -/
def serdeUnwrapMessage : String :=
  "called `Result::unwrap()` on an `Err` value"

/-- The skip warning of src/main.rs:135. -/
def skipWarning (name : String) : String :=
  "⚠️ Could not find issue, pull request or issue comment for attachment " ++ name ++ ". Skipping..."

def sizeUnitName : Nat → String
  | 0 => "B"
  | 1 => "KB"
  | 2 => "MB"
  | 3 => "GB"
  | 4 => "TB"
  | _ => "PB"

def sizeUnitExp (bytes : Nat) : Nat :=
  if bytes < 1024 then 0
  else if bytes < 1024 ^ 2 then 1
  else if bytes < 1024 ^ 3 then 2
  else if bytes < 1024 ^ 4 then 3
  else if bytes < 1024 ^ 5 then 4
  else 5

/-- Modelled from the spec: the size rendering performed by the external
byte_unit crate (`Byte::from_bytes(size).get_appropriate_unit(false).format(1)`
at src/main.rs:123-125) is not part of this repository.  Per the spec, the
rendering chooses the largest unit such that the value is at least 1 and rounds
to one decimal place, with 147,561 bytes rendering as `144.1 KB`; the spec's
example fixes the unit step at 1024. -/
def sizeRendering (bytes : Nat) : String :=
  let k := sizeUnitExp bytes
  let d := 1024 ^ k
  let tenths := (bytes * 10 + d / 2) / d
  toString (tenths / 10) ++ "." ++ toString (tenths % 10) ++ " " ++ sizeUnitName k

/-- The if/else chain of src/main.rs:127-136: the label derived for one
attachment, `none` when no parent context is populated. -/
def labelOf (a : Attachment) (sizeStr : String) : Option String :=
  match a.pull_request with
  | some pr => some (a.asset_name ++ " (" ++ pr ++ ") - " ++ sizeStr)
  | none =>
    match a.issue with
    | some i => some (a.asset_name ++ " (" ++ i ++ ") - " ++ sizeStr)
    | none =>
      match a.issue_comment with
      | some ic => some (a.asset_name ++ " (" ++ ic ++ ") - " ++ sizeStr)
      | none => none

def hasContext (a : Attachment) : Bool :=
  a.pull_request.isSome || a.issue.isSome || a.issue_comment.isSome

/-- The context identifier selected by the chain's fixed precedence:
pull_request, else issue, else issue_comment. -/
def precedenceContext (a : Attachment) : String :=
  match a.pull_request with
  | some pr => pr
  | none =>
    match a.issue with
    | some i => i
    | none =>
      match a.issue_comment with
      | some ic => ic
      | none => ""

/-- Total label function agreeing with `labelOf` on records that have a
context. -/
def theLabel (p : Attachment × Nat) : String :=
  match labelOf p.1 (sizeRendering p.2) with
  | some m => m
  | none => ""

/-- Bytewise comparison of filenames, the order in which the glob crate yields
matches. -/
def charListLe : List Char → List Char → Bool
  | [], _ => true
  | _ :: _, [] => false
  | a :: as, b :: bs =>
    if a.val < b.val then true
    else if b.val < a.val then false
    else charListLe as bs

def fileLe (a b : String × FileContent) : Bool :=
  charListLe a.1.data b.1.data

/-- Comparison by byte size, the sort key of src/main.rs:117. -/
def sizeLe (p q : Attachment × Nat) : Bool :=
  p.2 ≤ q.2

/-- Stable insertion into a sorted list: the new element goes after every
element the comparison places at or below it. -/
def insertLe (le : α → α → Bool) (x : α) : List α → List α
  | [] => [x]
  | y :: ys => if le y x then y :: insertLe le x ys else x :: y :: ys

/-- Stable ascending insertion sort (see the header note on
`sort_unstable_by_key`). -/
def isort (le : α → α → Bool) (l : List α) : List α :=
  l.foldl (fun acc x => insertLe le x acc) []

def recordsOf : FileContent → List Attachment
  | .records as => as
  | _ => []

/-- src/main.rs:27-32 — read one metadata file: an unreadable file propagates a
recoverable io error, a file that does not parse panics through
`Result::unwrap`. -/
def read_attachments_file : FileContent → Outcome (List Attachment)
  | .records as => .ok as
  | .malformed => .panic serdeUnwrapMessage
  | .unreadable e => .err e

/-- The loop body of src/main.rs:37-52, accumulating records across files in
glob order; `?` propagates a recoverable error, a parse panic aborts. -/
def readFilesGo : List (String × FileContent) → List Attachment → Outcome (List Attachment)
  | [], acc => .ok acc
  | f :: rest, acc =>
    match read_attachments_file f.2 with
    | .ok as => readFilesGo rest (acc ++ as)
    | .err e => .err e
    | .panic m => .panic m

/-- src/main.rs:34-55. -/
def read_attachments_files (env : Env) : Outcome (List Attachment) :=
  readFilesGo (isort fileLe env.metaFiles) []

/-- src/main.rs:57-63. -/
def get_working_directory : Option String → String
  | none => "."
  | some s => s

def lookupStat (env : Env) (p : String) : Option Nat :=
  env.stat.lookup p

def pathExists (env : Env) (p : String) : Bool :=
  (lookupStat env p).isSome

/-- The path the program checks and stats for one record
(src/main.rs:102). -/
def resolveAttachmentPath (wd url : String) : String :=
  joinPath wd (rustReplace url "tarball://root/" "")

/-- Follows the spec's words, for comparison with `resolveAttachmentPath`:
"strip a known placeholder prefix (representing archive root) and join the
remainder onto the working directory". -/
def resolveAttachmentPathSpec (wd url : String) : String :=
  joinPath wd
    (if leads "tarball://root/".data url.data
     then ⟨url.data.drop "tarball://root/".data.length⟩
     else url)

/-- The map of src/main.rs:92-111: resolve each record's path, panic if it is
absent, otherwise pair the record with its stat size. -/
def probeSizes (env : Env) (wd : String) : List Attachment → ProbeOutcome
  | [] => .ok []
  | a :: rest =>
    match lookupStat env (resolveAttachmentPath wd a.asset_url) with
    | none => .panic (missingAttachmentMessage (resolveAttachmentPath wd a.asset_url))
    | some n =>
      match probeSizes env wd rest with
      | .ok ps => .ok ((a, n) :: ps)
      | .panic m => .panic m

/-- The fold of src/main.rs:122-139: first component the stdout messages,
second the skip warnings sent to the diagnostic stream. -/
def buildMessages (pairs : List (Attachment × Nat)) : List String × List String :=
  pairs.foldl
    (fun acc p =>
      match labelOf p.1 (sizeRendering p.2) with
      | some m => (acc.1 ++ [m], acc.2)
      | none => (acc.1, acc.2 ++ [skipWarning p.1.asset_name]))
    ([], [])

/-- src/main.rs:65-142, also exposing the skip warnings emitted on the
diagnostic stream as the second component. -/
def process_attachmentsFull (provided : Option String) (env : Env) :
    Outcome (List String) × List String :=
  let wd := get_working_directory provided
  let firstPath := joinPath wd FIRST_ATTACHMENTS_METADATA_FILENAME
  let dirPath := joinPath wd ATTACHMENTS_DIRECTORY_NAME
  if !pathExists env firstPath || !pathExists env dirPath then
    (.err (preconditionMessage firstPath dirPath), [])
  else
    match read_attachments_files env with
    | .err e => (.err (readWrapMessage e), [])
    | .panic m => (.panic m, [])
    | .ok attachments =>
      match probeSizes env wd attachments with
      | .panic m => (.panic m, [])
      | .ok pairs =>
        let sorted := (isort sizeLe pairs).reverse
        ((Outcome.ok (buildMessages sorted).1), (buildMessages sorted).2)

/-- The `Result` value of `process_attachments`. -/
def process_attachments (provided : Option String) (env : Env) : Outcome (List String) :=
  (process_attachmentsFull provided env).1

/-- Observable end state of the process. -/
inductive ExitState where
  | exited : Nat → ExitState
  | aborted : String → ExitState
deriving DecidableEq

/-- src/main.rs:144-160: Ok exits with exitcode::OK (0), Err prints the error
and exits with exitcode::DATAERR (65), a panic aborts the process. -/
def rustMain (env : Env) : ExitState :=
  match process_attachments none env with
  | .ok _ => .exited 0
  | .err _ => .exited 65
  | .panic m => .aborted m

theorem insertLe_cons_true {le : α → α → Bool} {x y : α} {ys : List α} (h : le y x = true) :
    insertLe le x (y :: ys) = y :: insertLe le x ys := by
  simp [insertLe, h]

theorem insertLe_cons_false {le : α → α → Bool} {x y : α} {ys : List α} (h : le y x = false) :
    insertLe le x (y :: ys) = x :: y :: ys := by
  simp [insertLe, h]

theorem mem_insertLe {le : α → α → Bool} {x z : α} {l : List α} :
    z ∈ insertLe le x l ↔ z = x ∨ z ∈ l := by
  induction l with
  | nil => simp [insertLe]
  | cons y ys ih =>
    cases h : le y x with
    | true =>
      rw [insertLe_cons_true h]
      simp only [List.mem_cons, ih]
      tauto
    | false =>
      rw [insertLe_cons_false h]
      simp only [List.mem_cons]

theorem insertLe_perm (le : α → α → Bool) (x : α) (l : List α) :
    List.Perm (insertLe le x l) (x :: l) := by
  induction l with
  | nil => rfl
  | cons y ys ih =>
    cases h : le y x with
    | true =>
      rw [insertLe_cons_true h]
      exact (ih.cons y).trans (List.Perm.swap x y ys)
    | false =>
      rw [insertLe_cons_false h]

theorem isort_go_perm (le : α → α → Bool) (l : List α) :
    ∀ acc, List.Perm (List.foldl (fun acc x => insertLe le x acc) acc l) (acc ++ l) := by
  induction l with
  | nil => intro acc; simp
  | cons x xs ih =>
    intro acc
    have h1 := ih (insertLe le x acc)
    have h2 : List.Perm (insertLe le x acc ++ xs) ((x :: acc) ++ xs) :=
      (insertLe_perm le x acc).append_right xs
    have h3 : List.Perm ((x :: acc) ++ xs) (acc ++ x :: xs) := List.perm_middle.symm
    exact h1.trans (h2.trans h3)

theorem isort_perm (le : α → α → Bool) (l : List α) : List.Perm (isort le l) l := by
  simpa using isort_go_perm le l []

theorem mem_isort {le : α → α → Bool} {l : List α} {x : α} :
    x ∈ isort le l ↔ x ∈ l :=
  (isort_perm le l).mem_iff

/-- The list is pairwise nondecreasing for the Boolean comparison. -/
def SortedB (le : α → α → Bool) (l : List α) : Prop :=
  l.Pairwise (fun a b => le a b = true)

theorem sortedB_insertLe {le : α → α → Bool}
    (htot : ∀ a b, le a b = true ∨ le b a = true)
    (htrans : ∀ a b c, le a b = true → le b c = true → le a c = true)
    (x : α) : ∀ {l : List α}, SortedB le l → SortedB le (insertLe le x l) := by
  intro l
  induction l with
  | nil => intro _; simp [insertLe, SortedB]
  | cons y ys ih =>
    intro hl
    rw [SortedB, List.pairwise_cons] at hl
    obtain ⟨hy, hys⟩ := hl
    cases h : le y x with
    | true =>
      rw [insertLe_cons_true h, SortedB, List.pairwise_cons]
      refine ⟨?_, ih hys⟩
      intro b hb
      rcases mem_insertLe.mp hb with rfl | hb2
      · exact h
      · exact hy b hb2
    | false =>
      rw [insertLe_cons_false h]
      have hxy : le x y = true := (htot x y).resolve_right (by simp [h])
      rw [SortedB, List.pairwise_cons]
      refine ⟨?_, List.pairwise_cons.mpr ⟨hy, hys⟩⟩
      intro b hb
      rcases List.mem_cons.mp hb with rfl | hb2
      · exact hxy
      · exact htrans x y b hxy (hy b hb2)

theorem sortedB_isort {le : α → α → Bool}
    (htot : ∀ a b, le a b = true ∨ le b a = true)
    (htrans : ∀ a b c, le a b = true → le b c = true → le a c = true)
    (l : List α) : SortedB le (isort le l) := by
  have go : ∀ acc, SortedB le acc →
      SortedB le (List.foldl (fun acc x => insertLe le x acc) acc l) := by
    induction l with
    | nil => intro acc h; exact h
    | cons x xs ih =>
      intro acc h
      exact ih (insertLe le x acc) (sortedB_insertLe htot htrans x h)
  simpa [isort] using go [] (by simp [SortedB])

theorem sizeLe_total : ∀ p q : Attachment × Nat, sizeLe p q = true ∨ sizeLe q p = true := by
  intro p q
  simp only [sizeLe, decide_eq_true_eq]
  omega

theorem sizeLe_trans : ∀ p q r : Attachment × Nat,
    sizeLe p q = true → sizeLe q r = true → sizeLe p r = true := by
  intro p q r
  simp only [sizeLe, decide_eq_true_eq]
  omega

/-- The records of a given byte size, in list order. -/
def filterSize (s : Nat) (l : List (Attachment × Nat)) : List (Attachment × Nat) :=
  l.filter (fun p => p.2 == s)

theorem filterSize_insertLe {s : Nat} (x : Attachment × Nat) :
    ∀ {l : List (Attachment × Nat)}, SortedB sizeLe l →
      filterSize s (insertLe sizeLe x l) =
        if x.2 == s then filterSize s l ++ [x] else filterSize s l := by
  intro l
  induction l with
  | nil =>
    intro _
    cases hx : x.2 == s <;> simp [insertLe, filterSize, List.filter_cons, hx]
  | cons y ys ih =>
    intro hl
    rw [SortedB, List.pairwise_cons] at hl
    obtain ⟨hy, hys⟩ := hl
    cases h : sizeLe y x with
    | true =>
      have hrec := ih hys
      rw [insertLe_cons_true h]
      simp only [filterSize, List.filter_cons] at hrec ⊢
      rw [hrec]
      cases hyk : y.2 == s <;> cases hx : x.2 == s <;> simp [hyk, hx]
    | false =>
      rw [insertLe_cons_false h]
      have hlt : x.2 < y.2 := by
        have hnot : ¬ (y.2 ≤ x.2) := by simpa [sizeLe] using h
        omega
      cases hx : x.2 == s with
      | true =>
        have hs : x.2 = s := by simpa using hx
        have hnil : List.filter (fun p : Attachment × Nat => p.2 == s) (y :: ys) = [] := by
          rw [List.filter_eq_nil_iff]
          intro p hp
          have hge : y.2 ≤ p.2 := by
            rcases List.mem_cons.mp hp with rfl | hp2
            · exact Nat.le_refl _
            · simpa [sizeLe] using hy p hp2
          simp only [beq_iff_eq]
          omega
        simp [filterSize, List.filter_cons, hx, hnil]
      | false =>
        simp [filterSize, List.filter_cons, hx]

theorem filterSize_isort (s : Nat) (l : List (Attachment × Nat)) :
    filterSize s (isort sizeLe l) = filterSize s l := by
  have go : ∀ acc, SortedB sizeLe acc →
      filterSize s (List.foldl (fun acc x => insertLe sizeLe x acc) acc l) =
        filterSize s acc ++ filterSize s l := by
    induction l with
    | nil => intro acc _; simp [filterSize]
    | cons x xs ih =>
      intro acc hacc
      rw [List.foldl_cons]
      rw [ih (insertLe sizeLe x acc) (sortedB_insertLe sizeLe_total sizeLe_trans x hacc)]
      rw [filterSize_insertLe x hacc]
      cases hx : x.2 == s <;>
        simp [filterSize, List.filter_cons, hx, List.append_assoc]
  simpa [isort, filterSize] using go [] (by simp [SortedB])

/-- The sorted-descending pair list of src/main.rs:117-118. -/
def sortDesc (l : List (Attachment × Nat)) : List (Attachment × Nat) :=
  (isort sizeLe l).reverse

theorem filterSize_sortDesc (s : Nat) (l : List (Attachment × Nat)) :
    filterSize s (sortDesc l) = (filterSize s l).reverse := by
  rw [sortDesc, filterSize, List.filter_reverse, ← filterSize, filterSize_isort]

theorem sortDesc_pairwise (l : List (Attachment × Nat)) :
    (sortDesc l).Pairwise (fun p q => q.2 ≤ p.2) := by
  rw [sortDesc, List.pairwise_reverse]
  have hs := sortedB_isort sizeLe_total sizeLe_trans l
  rw [SortedB] at hs
  exact hs.imp (by intro a b h; simpa [sizeLe] using h)

theorem mem_sortDesc {l : List (Attachment × Nat)} {x : Attachment × Nat} :
    x ∈ sortDesc l ↔ x ∈ l := by
  rw [sortDesc, List.mem_reverse, mem_isort]

theorem labelOf_isSome {a : Attachment} {s : String} :
    (labelOf a s).isSome = hasContext a := by
  unfold labelOf hasContext
  cases a.pull_request <;> cases a.issue <;> cases a.issue_comment <;> simp

theorem labelOf_of_hasContext {a : Attachment} {s : String} (h : hasContext a = true) :
    labelOf a s = some (a.asset_name ++ " (" ++ precedenceContext a ++ ") - " ++ s) := by
  cases hp : a.pull_request with
  | some pr => simp [labelOf, precedenceContext, hp]
  | none =>
    cases hi : a.issue with
    | some i => simp [labelOf, precedenceContext, hp, hi]
    | none =>
      cases hc : a.issue_comment with
      | some ic => simp [labelOf, precedenceContext, hp, hi, hc]
      | none => simp [hasContext, hp, hi, hc] at h

theorem theLabel_eq {p : Attachment × Nat} {m : String}
    (h : labelOf p.1 (sizeRendering p.2) = some m) : theLabel p = m := by
  simp [theLabel, h]

theorem buildMessages_eq (l : List (Attachment × Nat)) :
    buildMessages l =
      ((l.filter fun p => hasContext p.1).map theLabel,
       (l.filter fun p => !hasContext p.1).map fun p => skipWarning p.1.asset_name) := by
  have go : ∀ ms ws,
      List.foldl
        (fun acc p =>
          match labelOf p.1 (sizeRendering p.2) with
          | some m => (acc.1 ++ [m], acc.2)
          | none => (acc.1, acc.2 ++ [skipWarning p.1.asset_name]))
        (ms, ws) l =
      (ms ++ (l.filter fun p => hasContext p.1).map theLabel,
       ws ++ (l.filter fun p => !hasContext p.1).map fun p => skipWarning p.1.asset_name) := by
    induction l with
    | nil => intro ms ws; simp
    | cons p ps ih =>
      intro ms ws
      rw [List.foldl_cons]
      cases hL : labelOf p.1 (sizeRendering p.2) with
      | some m =>
        have hc : hasContext p.1 = true := by
          rw [← labelOf_isSome (s := sizeRendering p.2), hL]
          rfl
        simp only [ih, List.filter_cons, hc]
        simp [theLabel_eq hL, List.append_assoc]
      | none =>
        have hc : hasContext p.1 = false := by
          rw [← labelOf_isSome (s := sizeRendering p.2), hL]
          rfl
        simp only [ih, List.filter_cons, hc]
        simp [List.append_assoc]
  simpa [buildMessages] using go [] []

theorem probeSizes_ok_firsts {env : Env} {wd : String} :
    ∀ {l : List Attachment} {pairs : List (Attachment × Nat)},
      probeSizes env wd l = .ok pairs → pairs.map Prod.fst = l := by
  intro l
  induction l with
  | nil =>
    intro pairs h
    simp only [probeSizes] at h
    cases h
    rfl
  | cons a rest ih =>
    intro pairs h
    simp only [probeSizes] at h
    cases hs : lookupStat env (resolveAttachmentPath wd a.asset_url) with
    | none => rw [hs] at h; cases h
    | some n =>
      rw [hs] at h
      cases hr : probeSizes env wd rest with
      | panic m => rw [hr] at h; cases h
      | ok ps =>
        rw [hr] at h
        cases h
        simp [ih hr]

theorem probeSizes_panic_of_missing {env : Env} {wd : String} {a : Attachment}
    (ha : lookupStat env (resolveAttachmentPath wd a.asset_url) = none) :
    ∀ {pre : List Attachment}
      (_ : ∀ b ∈ pre, (lookupStat env (resolveAttachmentPath wd b.asset_url)).isSome = true)
      (post : List Attachment),
      probeSizes env wd (pre ++ a :: post) =
        .panic (missingAttachmentMessage (resolveAttachmentPath wd a.asset_url)) := by
  intro pre
  induction pre with
  | nil =>
    intro _ post
    simp [probeSizes, ha]
  | cons b pre ih =>
    intro hpre post
    have hb := hpre b (List.mem_cons_self b pre)
    obtain ⟨n, hn⟩ := Option.isSome_iff_exists.mp hb
    have hrest := ih (fun c hc => hpre c (List.mem_cons_of_mem b hc)) post
    simp [probeSizes, hn, hrest]

theorem readFilesGo_ok :
    ∀ {l : List (String × FileContent)},
      (∀ f ∈ l, ∃ as, f.2 = FileContent.records as) →
      ∀ acc, readFilesGo l acc = .ok (acc ++ (l.map fun f => recordsOf f.2).flatten) := by
  intro l
  induction l with
  | nil => intro _ acc; simp [readFilesGo]
  | cons f rest ih =>
    intro h acc
    obtain ⟨as, hf⟩ := h f (List.mem_cons_self f rest)
    have hrest := ih (fun c hc => h c (List.mem_cons_of_mem f hc)) (acc ++ as)
    simp [readFilesGo, hf, read_attachments_file, hrest, recordsOf, List.append_assoc]

/-- Records concatenated across the metadata files in glob (filename) order,
when every file parses. -/
theorem read_attachments_files_ok {env : Env}
    (h : ∀ f ∈ env.metaFiles, ∃ as, f.2 = FileContent.records as) :
    read_attachments_files env =
      .ok (((isort fileLe env.metaFiles).map fun f => recordsOf f.2).flatten) := by
  have h2 : ∀ f ∈ isort fileLe env.metaFiles, ∃ as, f.2 = FileContent.records as :=
    fun f hf => h f (mem_isort.mp hf)
  simpa using readFilesGo_ok h2 []

theorem processFull_eq {wd : String} {env : Env} {attachments : List Attachment}
    {pairs : List (Attachment × Nat)}
    (h1 : pathExists env (joinPath wd FIRST_ATTACHMENTS_METADATA_FILENAME) = true)
    (h2 : pathExists env (joinPath wd ATTACHMENTS_DIRECTORY_NAME) = true)
    (hr : read_attachments_files env = .ok attachments)
    (hp : probeSizes env wd attachments = .ok pairs) :
    process_attachmentsFull (some wd) env =
      (.ok (((sortDesc pairs).filter fun p => hasContext p.1).map theLabel),
       ((sortDesc pairs).filter fun p => !hasContext p.1).map fun p => skipWarning p.1.asset_name) := by
  unfold process_attachmentsFull
  simp [get_working_directory, h1, h2, hr, hp, buildMessages_eq, sortDesc]

theorem processFull_ok_inv {wd : String} {env : Env} {msgs ws : List String}
    (h : process_attachmentsFull (some wd) env = (.ok msgs, ws)) :
    pathExists env (joinPath wd FIRST_ATTACHMENTS_METADATA_FILENAME) = true ∧
    pathExists env (joinPath wd ATTACHMENTS_DIRECTORY_NAME) = true ∧
    ∃ attachments pairs,
      read_attachments_files env = .ok attachments ∧
      probeSizes env wd attachments = .ok pairs ∧
      msgs = ((sortDesc pairs).filter fun p => hasContext p.1).map theLabel ∧
      ws = ((sortDesc pairs).filter fun p => !hasContext p.1).map fun p => skipWarning p.1.asset_name := by
  unfold process_attachmentsFull at h
  simp only [get_working_directory] at h
  cases h1 : pathExists env (joinPath wd FIRST_ATTACHMENTS_METADATA_FILENAME) with
  | false => rw [h1] at h; simp at h
  | true =>
    cases h2 : pathExists env (joinPath wd ATTACHMENTS_DIRECTORY_NAME) with
    | false => rw [h2] at h; simp at h
    | true =>
      rw [h1, h2] at h
      simp only [Bool.not_true, Bool.or_self, Bool.false_eq_true, if_false] at h
      refine ⟨rfl, rfl, ?_⟩
      split at h
      · simp at h
      · simp at h
      · rename_i attachments heq
        split at h
        · simp at h
        · rename_i pairs hp
          simp only [buildMessages_eq, Prod.mk.injEq, Outcome.ok.injEq] at h
          obtain ⟨hm, hw⟩ := h
          exact ⟨attachments, pairs, heq, hp, by rw [← hm, sortDesc], by rw [← hw, sortDesc]⟩

theorem append_take_of_le {l1 l2 : List Char} {n : Nat} (h : n ≤ l1.length) :
    (l1 ++ l2).take n = l1.take n := by
  rw [List.take_append_eq_append_take]
  have h0 : n - l1.length = 0 := by omega
  simp [h0]

theorem preconditionMessage_take (f d : String) :
    (preconditionMessage f d).data.take 15 = "Could not find ".data := by
  have hA : ("Could not find `".data).length = 16 := by decide
  rw [preconditionMessage]
  simp only [String.data_append]
  rw [append_take_of_le (by simp [List.length_append])]
  rw [append_take_of_le (by simp [List.length_append])]
  rw [append_take_of_le (by simp [List.length_append])]
  rw [append_take_of_le (by decide)]
  decide

theorem readWrapMessage_take (e : String) :
    (readWrapMessage e).data.take 15 = "Could not read ".data := by
  have hA : ("Could not read attachments metadata files: ".data).length = 43 := by decide
  rw [readWrapMessage]
  simp only [String.data_append]
  rw [append_take_of_le (by decide)]
  decide

theorem preconditionMessage_ne_readWrap (f d e : String) :
    preconditionMessage f d ≠ readWrapMessage e := by
  intro h
  have ht : (preconditionMessage f d).data.take 15 = (readWrapMessage e).data.take 15 := by
    rw [h]
  rw [preconditionMessage_take, readWrapMessage_take] at ht
  exact absurd ht (by decide)

theorem preconditionMessage_contains_first (f d : String) :
    containsStr (preconditionMessage f d) f := by
  refine ⟨"Could not find `",
    "` file and/or `" ++ d ++
      "/` directory. This suggests that either (a) your archive contains no attachments or (b) you're not in a directory created when you extract a GitHub archive.", ?_⟩
  simp [preconditionMessage, String.append_assoc]

theorem preconditionMessage_contains_dir (f d : String) :
    containsStr (preconditionMessage f d) d := by
  refine ⟨"Could not find `" ++ f ++ "` file and/or `",
    "/` directory. This suggests that either (a) your archive contains no attachments or (b) you're not in a directory created when you extract a GitHub archive.", ?_⟩
  simp [preconditionMessage, String.append_assoc]

/-- When at least one of the two expected paths is missing, the run stops at
the precondition check with its exact diagnostic and produces nothing else. -/
theorem processFull_precondition_err {wd : String} {env : Env}
    (h : pathExists env (joinPath wd FIRST_ATTACHMENTS_METADATA_FILENAME) = false ∨
         pathExists env (joinPath wd ATTACHMENTS_DIRECTORY_NAME) = false) :
    process_attachmentsFull (some wd) env =
      (.err (preconditionMessage (joinPath wd FIRST_ATTACHMENTS_METADATA_FILENAME)
               (joinPath wd ATTACHMENTS_DIRECTORY_NAME)), []) := by
  unfold process_attachmentsFull
  rcases h with h | h <;> simp [get_working_directory, h]

/-- When both expected paths are present, the result is never the precondition
error. -/
theorem processFull_no_precondition_err {wd : String} {env : Env}
    (h1 : pathExists env (joinPath wd FIRST_ATTACHMENTS_METADATA_FILENAME) = true)
    (h2 : pathExists env (joinPath wd ATTACHMENTS_DIRECTORY_NAME) = true) :
    process_attachments (some wd) env ≠
      .err (preconditionMessage (joinPath wd FIRST_ATTACHMENTS_METADATA_FILENAME)
              (joinPath wd ATTACHMENTS_DIRECTORY_NAME)) := by
  unfold process_attachments process_attachmentsFull
  simp only [get_working_directory, h1, h2, Bool.not_true, Bool.or_self, Bool.false_eq_true,
    if_false]
  split
  · rename_i e heq
    intro hcontra
    simp only [Outcome.err.injEq] at hcontra
    exact preconditionMessage_ne_readWrap _ _ e hcontra.symm
  · simp
  · split
    · simp
    · simp

theorem leads_append_self : ∀ (l r : List Char), leads l (l ++ r) = true := by
  intro l r
  induction l with
  | nil => rfl
  | cons c cs ih => simp [leads, ih]

theorem replaceGo_id {pat rep : List Char} :
    ∀ (fuel : Nat) (s : List Char), (∀ i, leads pat (s.drop i) = false) →
      replaceGo pat rep fuel s = s := by
  intro fuel
  induction fuel with
  | zero => intro s _; rfl
  | succ n ih =>
    intro s h
    cases s with
    | nil => rfl
    | cons c rest =>
      have h0 : leads pat (c :: rest) = false := by simpa using h 0
      simp only [replaceGo, h0, Bool.false_eq_true, if_false]
      rw [ih rest (fun i => by simpa using h (i + 1))]

theorem replaceGo_strip {pat rep : List Char} (hne : pat ≠ []) (n : Nat) (rest : List Char)
    (h : ∀ i, leads pat (rest.drop i) = false) :
    replaceGo pat rep (n + 1) (pat ++ rest) = rep ++ rest := by
  cases pat with
  | nil => exact absurd rfl hne
  | cons p ps =>
    have hl : leads (p :: ps) ((p :: ps) ++ rest) = true := leads_append_self _ _
    show replaceGo (p :: ps) rep (n + 1) (p :: (ps ++ rest)) = rep ++ rest
    simp only [replaceGo, List.cons_append]
    have hdrop : (p :: (ps ++ rest)).drop (p :: ps).length = rest := by
      show ((p :: ps) ++ rest).drop ((p :: ps).length) = rest
      exact List.drop_left _ _
    rw [if_pos (show leads (p :: ps) (p :: (ps ++ rest)) = true from hl), hdrop,
      replaceGo_id n rest h]

/-- Decidable check that `pat` occurs nowhere in `s`. -/
def noOccurB (pat s : List Char) : Bool :=
  (List.range (s.length + 1)).all (fun i => !(leads pat (s.drop i)))

theorem noOccurB_spec {pat s : List Char} (hne : pat ≠ []) (h : noOccurB pat s = true) :
    ∀ i, leads pat (s.drop i) = false := by
  intro i
  by_cases hi : i ≤ s.length
  · have := (List.all_eq_true.mp h) i (List.mem_range.mpr (by omega))
    simpa using this
  · have hdrop : s.drop i = [] := List.drop_eq_nil_of_le (by omega)
    rw [hdrop]
    cases pat with
    | nil => exact absurd rfl hne
    | cons p ps => rfl

theorem rustReplace_strip (rest : String)
    (h : noOccurB "tarball://root/".data rest.data = true) :
    rustReplace ("tarball://root/" ++ rest) "tarball://root/" "" = rest := by
  have hall := noOccurB_spec (by decide) h
  unfold rustReplace
  rw [if_neg (by decide)]
  have hdata : ("tarball://root/" ++ rest).data = "tarball://root/".data ++ rest.data := rfl
  rw [hdata]
  rw [List.length_append]
  rw [show ("tarball://root/".data).length + rest.data.length + 1 =
    ("tarball://root/".data).length + rest.data.length + 1 from rfl]
  rw [show (("tarball://root/".data).length + rest.data.length + 1) =
    (("tarball://root/".data).length + rest.data.length) + 1 from rfl]
  rw [replaceGo_strip (by decide) _ rest.data hall]
  show String.mk ([] ++ rest.data) = rest
  rw [List.nil_append]

theorem resolveSpec_strip (wd rest : String)
    (h : leads "tarball://root/".data ("tarball://root/" ++ rest).data = true) :
    resolveAttachmentPathSpec wd ("tarball://root/" ++ rest) = joinPath wd rest := by
  unfold resolveAttachmentPathSpec
  rw [if_pos h]
  have hdrop : (("tarball://root/" ++ rest).data).drop ("tarball://root/".data).length
      = rest.data := by
    have hdata : ("tarball://root/" ++ rest).data = "tarball://root/".data ++ rest.data := rfl
    rw [hdata]
    exact List.drop_left _ _
  rw [hdrop]

/-- Helper to build a record varying only the fields the claims depend on. -/
def mkAtt (pr i ic : Option String) (name url : String) : Attachment :=
  ⟨"attachment", "https://example.com/x", pr, i, ic, "alice", name, "image/jpeg", url,
   "2023-01-01T00:00:00Z"⟩

/-- Shared inversion of a successful run at the `Result` level. -/
theorem process_attachments_ok_inv {wd : String} {env : Env} {msgs : List String}
    (h : process_attachments (some wd) env = .ok msgs) :
    ∃ attachments pairs,
      read_attachments_files env = .ok attachments ∧
      probeSizes env wd attachments = .ok pairs ∧
      msgs = ((sortDesc pairs).filter fun p => hasContext p.1).map theLabel ∧
      (process_attachmentsFull (some wd) env).2 =
        ((sortDesc pairs).filter fun p => !hasContext p.1).map
          fun p => skipWarning p.1.asset_name := by
  rw [process_attachments] at h
  have hP : process_attachmentsFull (some wd) env =
      (Outcome.ok msgs, (process_attachmentsFull (some wd) env).2) := by
    calc process_attachmentsFull (some wd) env
        = ((process_attachmentsFull (some wd) env).1,
           (process_attachmentsFull (some wd) env).2) := Prod.mk.eta.symm
      _ = (Outcome.ok msgs, (process_attachmentsFull (some wd) env).2) := by rw [h]
  obtain ⟨_, _, attachments, pairs, hr, hp, hm, hw⟩ := processFull_ok_inv hP
  exact ⟨attachments, pairs, hr, hp, hm, hw⟩

def attA : Attachment := mkAtt (some "PA") none none "a.jpg" "tarball://root/attachments/a.jpg"

def attB : Attachment := mkAtt none none none "b.jpg" "tarball://root/attachments/b.jpg"

def attC : Attachment := mkAtt none (some "IC") none "c.jpg" "tarball://root/attachments/c.jpg"

/-- Two records with contexts whose backing files have identical size, listed
in discovery order `attA`, `attC`. -/
def envC1 : Env :=
  { metaFiles := [("attachments_000001.json", .records [attA, attC])],
    stat := [("w/attachments_000001.json", 64), ("w/attachments", 4096),
             ("w/attachments/a.jpg", 5), ("w/attachments/c.jpg", 5)] }

/-- C1 counterexample: the metadata lists `attA` before `attC`, both resolve
to 5-byte files, yet the output lists `attC`'s label before `attA`'s — equal
sizes do not retain discovery order. -/
theorem claim_C1_counterexample :
    read_attachments_files envC1 = .ok [attA, attC] ∧
    probeSizes envC1 "w" [attA, attC] = .ok [(attA, 5), (attC, 5)] ∧
    process_attachments (some "w") envC1 =
      .ok [theLabel (attC, 5), theLabel (attA, 5)] ∧
    theLabel (attC, 5) = "c.jpg (IC) - 5.0 B" ∧
    theLabel (attA, 5) = "a.jpg (PA) - 5.0 B" ∧
    theLabel (attC, 5) ≠ theLabel (attA, 5) := by
  refine ⟨by decide, by decide, by decide, by decide, by decide, by decide⟩

/-- C1 (amended): records of identical byte size are not guaranteed to retain
their relative discovery order (the counterexample exhibits a reversal at a
two-record input); what every successful run does guarantee — independently of
the unstable sort's unspecified tie order — is that the output reads off the
size-sorted sequence and that, for each byte size, the retained records of
that size are a permutation of their discovery-order subsequence. -/
theorem claim_C1 (wd : String) (env : Env) (msgs : List String)
    (h : process_attachments (some wd) env = .ok msgs) :
    ∃ attachments pairs,
      read_attachments_files env = .ok attachments ∧
      probeSizes env wd attachments = .ok pairs ∧
      msgs = ((sortDesc pairs).filter fun p => hasContext p.1).map theLabel ∧
      ∀ s : Nat, List.Perm (filterSize s (sortDesc pairs)) (filterSize s pairs) := by
  obtain ⟨attachments, pairs, hr, hp, hm, _⟩ := process_attachments_ok_inv h
  refine ⟨attachments, pairs, hr, hp, hm, fun s => ?_⟩
  rw [filterSize_sortDesc s pairs]
  exact List.reverse_perm _

theorem claim_C1_witness :
    process_attachments (some "w") envC1 =
      .ok ["c.jpg (IC) - 5.0 B", "a.jpg (PA) - 5.0 B"] ∧
    ∃ attachments pairs,
      read_attachments_files envC1 = .ok attachments ∧
      probeSizes envC1 "w" attachments = .ok pairs ∧
      ["c.jpg (IC) - 5.0 B", "a.jpg (PA) - 5.0 B"] =
        ((sortDesc pairs).filter fun p => hasContext p.1).map theLabel ∧
      ∀ s : Nat, List.Perm (filterSize s (sortDesc pairs)) (filterSize s pairs) :=
  ⟨by decide, claim_C1 "w" envC1 _ (by decide)⟩

/-- A run whose only metadata file is present on disk but does not parse as a
record array; the attachments directory also exists, so the precondition
passes. -/
def envC2 : Env :=
  { metaFiles := [("attachments_000001.json", .malformed)],
    stat := [("./attachments_000001.json", 64), ("./attachments", 4096)] }

/-- C2: a metadata file that does not parse makes the run panic through
`Result::unwrap` (src/main.rs:29) and abort the process, instead of returning
the recoverable error that would be printed and mapped to the data-error exit
status (65); the claim describes the intended behaviour, the code panics. -/
theorem claim_C2 :
    process_attachments none envC2 = .panic serdeUnwrapMessage ∧
    rustMain envC2 = .aborted serdeUnwrapMessage ∧
    rustMain envC2 ≠ .exited 65 ∧
    ∀ e, process_attachments none envC2 ≠ .err e := by
  refine ⟨by decide, by decide, by decide, ?_⟩
  intro e h
  rw [show process_attachments none envC2 = .panic serdeUnwrapMessage from by decide] at h
  exact Outcome.noConfusion h

/-- Attachments directory present, first metadata file absent. -/
def envC3 : Env := { metaFiles := [], stat := [("w/attachments", 4096)] }

/-- C3 counterexample: the claim predicts the precondition error only when
neither path exists, but here the attachments directory exists and the first
metadata file does not, and the run still returns the precondition error. -/
theorem claim_C3_counterexample :
    pathExists envC3 (joinPath "w" ATTACHMENTS_DIRECTORY_NAME) = true ∧
    pathExists envC3 (joinPath "w" FIRST_ATTACHMENTS_METADATA_FILENAME) = false ∧
    process_attachments (some "w") envC3 =
      .err (preconditionMessage "w/attachments_000001.json" "w/attachments") := by
  refine ⟨by decide, by decide, by decide⟩

/-- C3 (amended): the run returns the recoverable precondition error exactly
when at least one of the first metadata file and the attachments directory is
missing; that error's message contains both expected paths verbatim, and the
failing run produces no messages and no warnings. -/
theorem claim_C3 (wd : String) (env : Env) :
    (process_attachments (some wd) env =
        .err (preconditionMessage (joinPath wd FIRST_ATTACHMENTS_METADATA_FILENAME)
                (joinPath wd ATTACHMENTS_DIRECTORY_NAME))
      ↔ (pathExists env (joinPath wd FIRST_ATTACHMENTS_METADATA_FILENAME) = false ∨
         pathExists env (joinPath wd ATTACHMENTS_DIRECTORY_NAME) = false)) ∧
    containsStr (preconditionMessage (joinPath wd FIRST_ATTACHMENTS_METADATA_FILENAME)
        (joinPath wd ATTACHMENTS_DIRECTORY_NAME))
      (joinPath wd FIRST_ATTACHMENTS_METADATA_FILENAME) ∧
    containsStr (preconditionMessage (joinPath wd FIRST_ATTACHMENTS_METADATA_FILENAME)
        (joinPath wd ATTACHMENTS_DIRECTORY_NAME))
      (joinPath wd ATTACHMENTS_DIRECTORY_NAME) ∧
    ((pathExists env (joinPath wd FIRST_ATTACHMENTS_METADATA_FILENAME) = false ∨
      pathExists env (joinPath wd ATTACHMENTS_DIRECTORY_NAME) = false) →
      process_attachmentsFull (some wd) env =
        (.err (preconditionMessage (joinPath wd FIRST_ATTACHMENTS_METADATA_FILENAME)
                 (joinPath wd ATTACHMENTS_DIRECTORY_NAME)), [])) := by
  refine ⟨⟨?_, ?_⟩, preconditionMessage_contains_first _ _,
    preconditionMessage_contains_dir _ _, processFull_precondition_err⟩
  · intro h
    cases hb1 : pathExists env (joinPath wd FIRST_ATTACHMENTS_METADATA_FILENAME) with
    | false => exact Or.inl rfl
    | true =>
      cases hb2 : pathExists env (joinPath wd ATTACHMENTS_DIRECTORY_NAME) with
      | false => exact Or.inr rfl
      | true => exact absurd h (processFull_no_precondition_err hb1 hb2)
  · intro h
    rw [process_attachments, processFull_precondition_err h]

/-- C4: every successful run's output is exactly one label per retained
(context-bearing) pair of the size-sorted sequence, read in order, and that
retained subsequence is sorted by non-increasing byte size — skipping a record
neither reorders nor re-ranks the retained ones. -/
theorem claim_C4 (wd : String) (env : Env) (msgs : List String)
    (h : process_attachments (some wd) env = .ok msgs) :
    ∃ attachments pairs,
      read_attachments_files env = .ok attachments ∧
      probeSizes env wd attachments = .ok pairs ∧
      msgs = ((sortDesc pairs).filter fun p => hasContext p.1).map theLabel ∧
      ((sortDesc pairs).filter fun p => hasContext p.1).Pairwise (fun p q => q.2 ≤ p.2) := by
  obtain ⟨attachments, pairs, hr, hp, hm, _⟩ := process_attachments_ok_inv h
  refine ⟨attachments, pairs, hr, hp, hm, ?_⟩
  exact List.Pairwise.sublist (List.filter_sublist _) (sortDesc_pairwise pairs)

/-- Three records: sizes 5 (pull-request context), 9 (no context), 5 (issue
context), exercising both the sort and the skip path. -/
def demoEnv : Env :=
  { metaFiles := [("attachments_000001.json", .records [attA, attB, attC])],
    stat := [("w/attachments_000001.json", 64), ("w/attachments", 4096),
             ("w/attachments/a.jpg", 5), ("w/attachments/b.jpg", 9),
             ("w/attachments/c.jpg", 5)] }

theorem claim_C4_witness :
    process_attachments (some "w") demoEnv =
      .ok ["c.jpg (IC) - 5.0 B", "a.jpg (PA) - 5.0 B"] ∧
    ∃ attachments pairs,
      read_attachments_files demoEnv = .ok attachments ∧
      probeSizes demoEnv "w" attachments = .ok pairs ∧
      ["c.jpg (IC) - 5.0 B", "a.jpg (PA) - 5.0 B"] =
        ((sortDesc pairs).filter fun p => hasContext p.1).map theLabel ∧
      ((sortDesc pairs).filter fun p => hasContext p.1).Pairwise (fun p q => q.2 ≤ p.2) :=
  ⟨by decide, claim_C4 "w" demoEnv _ (by decide)⟩

/-- C5: with every metadata file parsing, the loader returns the concatenation
of the files' records in filename order, and whenever a successful run prints
anything, its first line is the label of a retained pair whose size is maximal
among all retained pairs of the merged sequence — wherever it came from. -/
theorem claim_C5 (wd : String) (env : Env)
    (hall : ∀ f ∈ env.metaFiles, ∃ as, f.2 = FileContent.records as) :
    read_attachments_files env =
      .ok (((isort fileLe env.metaFiles).map fun f => recordsOf f.2).flatten) ∧
    ∀ m rest, process_attachments (some wd) env = .ok (m :: rest) →
      ∃ attachments pairs p,
        read_attachments_files env = .ok attachments ∧
        probeSizes env wd attachments = .ok pairs ∧
        p ∈ pairs ∧ hasContext p.1 = true ∧ theLabel p = m ∧
        ∀ q ∈ pairs, hasContext q.1 = true → q.2 ≤ p.2 := by
  refine ⟨read_attachments_files_ok hall, ?_⟩
  intro m rest h
  obtain ⟨attachments, pairs, hr, hp, hm, _⟩ := process_attachments_ok_inv h
  obtain ⟨p, tail, hfeq, hlab, _⟩ := List.map_eq_cons_iff.mp hm.symm
  have hpf : p ∈ (sortDesc pairs).filter fun q => hasContext q.1 := by
    rw [hfeq]
    exact List.mem_cons_self p tail
  have hpmem : p ∈ pairs := mem_sortDesc.mp (List.mem_filter.mp hpf).1
  have hpc : hasContext p.1 = true := (List.mem_filter.mp hpf).2
  have hpw : ((sortDesc pairs).filter fun q => hasContext q.1).Pairwise
      (fun p q => q.2 ≤ p.2) :=
    List.Pairwise.sublist (List.filter_sublist _) (sortDesc_pairwise pairs)
  rw [hfeq, List.pairwise_cons] at hpw
  refine ⟨attachments, pairs, p, hr, hp, hpmem, hpc, hlab, ?_⟩
  intro q hq hqc
  have hqf : q ∈ (sortDesc pairs).filter fun q => hasContext q.1 :=
    List.mem_filter.mpr ⟨mem_sortDesc.mpr hq, hqc⟩
  rw [hfeq] at hqf
  rcases List.mem_cons.mp hqf with rfl | hqtail
  · exact Nat.le_refl _
  · exact hpw.1 q hqtail

def attD : Attachment := mkAtt (some "PD") none none "d.jpg" "tarball://root/attachments/d.jpg"

/-- Two metadata files, listed out of filename order, with the largest
attachment (100 bytes) in the second file. -/
def envC5 : Env :=
  { metaFiles := [("attachments_000002.json", .records [attD]),
                  ("attachments_000001.json", .records [attA, attC])],
    stat := [("w/attachments_000001.json", 64), ("w/attachments_000002.json", 64),
             ("w/attachments", 4096), ("w/attachments/a.jpg", 5),
             ("w/attachments/c.jpg", 5), ("w/attachments/d.jpg", 100)] }

theorem claim_C5_witness :
    process_attachments (some "w") envC5 =
      .ok ["d.jpg (PD) - 100.0 B", "c.jpg (IC) - 5.0 B", "a.jpg (PA) - 5.0 B"] ∧
    read_attachments_files envC5 = .ok [attA, attC, attD] ∧
    (read_attachments_files envC5 =
        .ok (((isort fileLe envC5.metaFiles).map fun f => recordsOf f.2).flatten) ∧
      ∀ m rest, process_attachments (some "w") envC5 = .ok (m :: rest) →
        ∃ attachments pairs p,
          read_attachments_files envC5 = .ok attachments ∧
          probeSizes envC5 "w" attachments = .ok pairs ∧
          p ∈ pairs ∧ hasContext p.1 = true ∧ theLabel p = m ∧
          ∀ q ∈ pairs, hasContext q.1 = true → q.2 ≤ p.2) :=
  ⟨by decide, by decide,
   claim_C5 "w" envC5 (by
     intro f hf
     simp only [envC5, List.mem_cons, List.not_mem_nil, or_false] at hf
     rcases hf with rfl | rfl
     · exact ⟨[attD], rfl⟩
     · exact ⟨[attA, attC], rfl⟩)⟩

/-- C6: with the precondition satisfied and the metadata read, a record whose
resolved path is absent from disk (all records before it resolving) makes the
run end in a process-terminating panic with the missing-file message, never in
a recoverable error return. -/
theorem claim_C6 (wd : String) (env : Env) (attachments pre post : List Attachment)
    (a : Attachment)
    (h1 : pathExists env (joinPath wd FIRST_ATTACHMENTS_METADATA_FILENAME) = true)
    (h2 : pathExists env (joinPath wd ATTACHMENTS_DIRECTORY_NAME) = true)
    (hr : read_attachments_files env = .ok attachments)
    (hsplit : attachments = pre ++ a :: post)
    (hpre : ∀ b ∈ pre, (lookupStat env (resolveAttachmentPath wd b.asset_url)).isSome = true)
    (hmiss : lookupStat env (resolveAttachmentPath wd a.asset_url) = none) :
    process_attachments (some wd) env =
      .panic (missingAttachmentMessage (resolveAttachmentPath wd a.asset_url)) ∧
    ∀ e, process_attachments (some wd) env ≠ .err e := by
  have hprobe := probeSizes_panic_of_missing hmiss hpre post
  have hfull : process_attachmentsFull (some wd) env =
      (.panic (missingAttachmentMessage (resolveAttachmentPath wd a.asset_url)), []) := by
    unfold process_attachmentsFull
    simp [get_working_directory, h1, h2, hr, hsplit, hprobe]
  constructor
  · rw [process_attachments, hfull]
  · intro e h
    rw [process_attachments, hfull] at h
    exact Outcome.noConfusion h

def attE : Attachment := mkAtt (some "PE") none none "e.jpg" "tarball://root/attachments/e.jpg"

/-- Metadata lists `attA` (backing file present) then `attE`, whose backing
file is absent from disk. -/
def envC6 : Env :=
  { metaFiles := [("attachments_000001.json", .records [attA, attE])],
    stat := [("w/attachments_000001.json", 64), ("w/attachments", 4096),
             ("w/attachments/a.jpg", 5)] }

theorem claim_C6_witness :
    pathExists envC6 (joinPath "w" FIRST_ATTACHMENTS_METADATA_FILENAME) = true ∧
    pathExists envC6 (joinPath "w" ATTACHMENTS_DIRECTORY_NAME) = true ∧
    read_attachments_files envC6 = .ok [attA, attE] ∧
    lookupStat envC6 (resolveAttachmentPath "w" attE.asset_url) = none ∧
    (process_attachments (some "w") envC6 =
        .panic (missingAttachmentMessage (resolveAttachmentPath "w" attE.asset_url)) ∧
      ∀ e, process_attachments (some "w") envC6 ≠ .err e) :=
  ⟨by decide, by decide, by decide, by decide,
   claim_C6 "w" envC6 [attA, attE] [attA] [] attE (by decide) (by decide) (by decide) rfl
     (by decide) (by decide)⟩

/-- C7: in any successful run, a record with none of the three parent-context
fields populated yields the skip warning on the diagnostic stream, contributes
no output message (every message comes from a context-bearing pair, none of
them that record), and the remaining records are still processed into the
output. -/
theorem claim_C7 (wd : String) (env : Env) (msgs : List String)
    (attachments : List Attachment) (a : Attachment)
    (hr : read_attachments_files env = .ok attachments)
    (hmem : a ∈ attachments)
    (hnone : a.pull_request = none ∧ a.issue = none ∧ a.issue_comment = none)
    (h : process_attachments (some wd) env = .ok msgs) :
    skipWarning a.asset_name ∈ (process_attachmentsFull (some wd) env).2 ∧
    ∃ pairs, probeSizes env wd attachments = .ok pairs ∧
      msgs = ((sortDesc pairs).filter fun p => hasContext p.1).map theLabel ∧
      ∀ p ∈ (sortDesc pairs).filter fun p => hasContext p.1, p.1 ≠ a := by
  obtain ⟨attachments2, pairs, hr2, hp, hm, hw⟩ := process_attachments_ok_inv h
  have hsame : attachments2 = attachments := by
    rw [hr] at hr2
    cases hr2
    rfl
  subst hsame
  have hca : hasContext a = false := by
    simp [hasContext, hnone.1, hnone.2.1, hnone.2.2]
  constructor
  · rw [hw]
    have hfst := probeSizes_ok_firsts hp
    have hmem2 : a ∈ pairs.map Prod.fst := by rw [hfst]; exact hmem
    obtain ⟨p, hpmem, hpa⟩ := List.mem_map.mp hmem2
    have hfilter : p ∈ (sortDesc pairs).filter fun p => !hasContext p.1 := by
      rw [List.mem_filter]
      refine ⟨mem_sortDesc.mpr hpmem, ?_⟩
      rw [hpa, hca]
      rfl
    exact List.mem_map.mpr ⟨p, hfilter, by rw [hpa]⟩
  · refine ⟨pairs, hp, hm, ?_⟩
    intro p hpf hcontra
    have hpc := (List.mem_filter.mp hpf).2
    rw [hcontra, hca] at hpc
    exact absurd hpc (by simp)

theorem claim_C7_witness :
    read_attachments_files demoEnv = .ok [attA, attB, attC] ∧
    attB ∈ [attA, attB, attC] ∧
    (attB.pull_request = none ∧ attB.issue = none ∧ attB.issue_comment = none) ∧
    process_attachments (some "w") demoEnv =
      .ok ["c.jpg (IC) - 5.0 B", "a.jpg (PA) - 5.0 B"] ∧
    skipWarning attB.asset_name ∈ (process_attachmentsFull (some "w") demoEnv).2 ∧
    ∃ pairs, probeSizes demoEnv "w" [attA, attB, attC] = .ok pairs ∧
      ["c.jpg (IC) - 5.0 B", "a.jpg (PA) - 5.0 B"] =
        ((sortDesc pairs).filter fun p => hasContext p.1).map theLabel ∧
      ∀ p ∈ (sortDesc pairs).filter fun p => hasContext p.1, p.1 ≠ attB :=
  ⟨by decide, by decide, by decide, by decide,
   (claim_C7 "w" demoEnv ["c.jpg (IC) - 5.0 B", "a.jpg (PA) - 5.0 B"] [attA, attB, attC]
     attB (by decide) (by decide) (by decide) (by decide)).1,
   (claim_C7 "w" demoEnv ["c.jpg (IC) - 5.0 B", "a.jpg (PA) - 5.0 B"] [attA, attB, attC]
     attB (by decide) (by decide) (by decide) (by decide)).2⟩

/-- C8 counterexample: `str::replace` removes every occurrence of the
placeholder, not just a leading prefix — on an `assetLocation` containing the
placeholder twice, the code's resolved path differs from the spec's
strip-the-prefix description. -/
theorem claim_C8_counterexample :
    resolveAttachmentPath "w" "tarball://root/tarball://root/x" = "w/x" ∧
    resolveAttachmentPathSpec "w" "tarball://root/tarball://root/x" =
      "w/tarball://root/x" ∧
    resolveAttachmentPath "w" "tarball://root/tarball://root/x" ≠
      resolveAttachmentPathSpec "w" "tarball://root/tarball://root/x" := by
  refine ⟨by decide, by decide, by decide⟩

/-- C8 (amended): the resolver removes every occurrence of the placeholder
`tarball://root/` from `assetLocation` and joins the remainder onto the
working directory; whenever the location is the placeholder followed by a
remainder that does not itself contain the placeholder, this coincides with
the spec's strip-a-leading-prefix description.  It is a pure function of the
two strings. -/
theorem claim_C8 (wd rest : String)
    (h : noOccurB "tarball://root/".data rest.data = true) :
    resolveAttachmentPath wd ("tarball://root/" ++ rest) = joinPath wd rest ∧
    resolveAttachmentPath wd ("tarball://root/" ++ rest) =
      resolveAttachmentPathSpec wd ("tarball://root/" ++ rest) := by
  have hstrip := rustReplace_strip rest h
  have hleads : leads "tarball://root/".data ("tarball://root/" ++ rest).data = true :=
    leads_append_self "tarball://root/".data rest.data
  constructor
  · rw [resolveAttachmentPath, hstrip]
  · rw [resolveAttachmentPath, hstrip, resolveSpec_strip wd rest hleads]

theorem claim_C8_witness :
    noOccurB "tarball://root/".data ("attachments/1234/photo.jpg").data = true ∧
    (resolveAttachmentPath "w" ("tarball://root/" ++ "attachments/1234/photo.jpg") =
        joinPath "w" "attachments/1234/photo.jpg" ∧
      resolveAttachmentPath "w" ("tarball://root/" ++ "attachments/1234/photo.jpg") =
        resolveAttachmentPathSpec "w" ("tarball://root/" ++ "attachments/1234/photo.jpg")) :=
  ⟨by decide, claim_C8 "w" "attachments/1234/photo.jpg" (by decide)⟩

def photoAtt : Attachment :=
  mkAtt (some "https://github.com/owner/repo/pull/337") none none "photo.jpg"
    "tarball://root/attachments/1234/photo.jpg"

/-- One attachment of exactly 147,561 bytes with a pull-request context. -/
def envC9 : Env :=
  { metaFiles := [("attachments_000001.json", .records [photoAtt])],
    stat := [("w/attachments_000001.json", 64), ("w/attachments", 4096),
             ("w/attachments/1234/photo.jpg", 147561)] }

/-- C9: the single 147,561-byte pull-request attachment yields exactly the one
label `photo.jpg (<pull-request-id>) - 144.1 KB`, and nothing reaches the
diagnostic stream's skip warnings (size rendering modelled from the spec, see
`sizeRendering`). -/
theorem claim_C9 :
    process_attachments (some "w") envC9 =
      .ok ["photo.jpg (https://github.com/owner/repo/pull/337) - 144.1 KB"] ∧
    sizeRendering 147561 = "144.1 KB" ∧
    (process_attachmentsFull (some "w") envC9).2 = [] := by
  refine ⟨by decide, by decide, by decide⟩

/-- C10: whenever more than one parent-context field is populated, the label
chain still produces exactly one label and selects the identifier by the fixed
precedence pull_request, then issue, then issue_comment. -/
theorem claim_C10 (a : Attachment) (n : Nat)
    (h : (a.pull_request.isSome && a.issue.isSome) = true ∨
         (a.pull_request.isSome && a.issue_comment.isSome) = true ∨
         (a.issue.isSome && a.issue_comment.isSome) = true) :
    labelOf a (sizeRendering n) =
      some (a.asset_name ++ " (" ++ precedenceContext a ++ ") - " ++ sizeRendering n) ∧
    buildMessages [(a, n)] =
      ([a.asset_name ++ " (" ++ precedenceContext a ++ ") - " ++ sizeRendering n], []) := by
  have hc : hasContext a = true := by
    rcases h with h | h | h <;>
      simp only [Bool.and_eq_true] at h <;>
      simp [hasContext, h.1, h.2]
  have hl := labelOf_of_hasContext (s := sizeRendering n) hc
  refine ⟨hl, ?_⟩
  simp [buildMessages, hl]

def attF : Attachment := mkAtt (some "P337") (some "I42") none "f.jpg" "tarball://root/attachments/f.jpg"

theorem claim_C10_witness :
    (attF.pull_request.isSome && attF.issue.isSome) = true ∧
    (labelOf attF (sizeRendering 5) =
        some (attF.asset_name ++ " (" ++ precedenceContext attF ++ ") - " ++ sizeRendering 5) ∧
      buildMessages [(attF, 5)] =
        ([attF.asset_name ++ " (" ++ precedenceContext attF ++ ") - " ++ sizeRendering 5], [])) :=
  ⟨by decide, claim_C10 attF 5 (Or.inl (by decide))⟩

theorem claim_C3_witness :
    (process_attachments (some "w") envC3 =
        .err (preconditionMessage (joinPath "w" FIRST_ATTACHMENTS_METADATA_FILENAME)
                (joinPath "w" ATTACHMENTS_DIRECTORY_NAME))
      ↔ (pathExists envC3 (joinPath "w" FIRST_ATTACHMENTS_METADATA_FILENAME) = false ∨
         pathExists envC3 (joinPath "w" ATTACHMENTS_DIRECTORY_NAME) = false)) ∧
    containsStr (preconditionMessage (joinPath "w" FIRST_ATTACHMENTS_METADATA_FILENAME)
        (joinPath "w" ATTACHMENTS_DIRECTORY_NAME))
      (joinPath "w" FIRST_ATTACHMENTS_METADATA_FILENAME) ∧
    containsStr (preconditionMessage (joinPath "w" FIRST_ATTACHMENTS_METADATA_FILENAME)
        (joinPath "w" ATTACHMENTS_DIRECTORY_NAME))
      (joinPath "w" ATTACHMENTS_DIRECTORY_NAME) ∧
    ((pathExists envC3 (joinPath "w" FIRST_ATTACHMENTS_METADATA_FILENAME) = false ∨
      pathExists envC3 (joinPath "w" ATTACHMENTS_DIRECTORY_NAME) = false) →
      process_attachmentsFull (some "w") envC3 =
        (.err (preconditionMessage (joinPath "w" FIRST_ATTACHMENTS_METADATA_FILENAME)
                 (joinPath "w" ATTACHMENTS_DIRECTORY_NAME)), [])) :=
  claim_C3 "w" envC3
